import Mathlib

set_option maxRecDepth 1000000

/-!
Verification development for the fuzzy name-resolution core of the
Sbis_Yen repository (`name_matching.py`, `catalog_lookup.py`, `utils.py`).

Python strings are modelled as `List Char`; Python floats that hold
similarity scores and prices are modelled as `ℚ`; fallible functions
return `Except`.  Functions present under `src/` are translated from the
source; the two functions `find_best_match` and `calc_similarity` are
imported by several source files from `name_matching` but are absent from
`src/name_matching.py`, so they are modelled from the spec (sections 4.1
and 4.2) and are marked `Modelled from the spec:` below.
-/

/-! ## Character and string helpers -/

/-- Whitespace test matching Python `str.split` / `str.strip` (the
whitespace characters that occur in this domain). -/
def isWs (c : Char) : Bool :=
  c == ' ' || c == '\t' || c == '\n' || c == '\r'

/-- Python `str.strip()`. -/
def trimChars (s : List Char) : List Char :=
  ((s.dropWhile isWs).reverse.dropWhile isWs).reverse

/-- Python `str.casefold()` / `str.lower()` restricted to the ASCII and
Cyrillic alphabets that occur in the catalogs (full Unicode case folding
is not modelled). -/
def lowerChar (c : Char) : Char :=
  if 'A' ≤ c ∧ c ≤ 'Z' then Char.ofNat (c.toNat + 32)
  else if 'А' ≤ c ∧ c ≤ 'Я' then Char.ofNat (c.toNat + 32)
  else if c = 'Ё' then 'ё'
  else c

/-- Helper for `splitWs`: accumulates the current word (reversed). -/
def splitWsAux : List Char → List Char → List (List Char)
  | [], acc => if acc = [] then [] else [acc.reverse]
  | c :: cs, acc =>
    if isWs c then
      if acc = [] then splitWsAux cs [] else acc.reverse :: splitWsAux cs []
    else splitWsAux cs (c :: acc)

/-- Python `str.split()` with no argument: split on whitespace runs,
dropping empty pieces. -/
def splitWs (s : List Char) : List (List Char) :=
  splitWsAux s []

/-- `_normalize` from `name_matching.py`:
`" ".join(str(name or "").split()).strip().casefold()`. -/
def normalizeName (s : List Char) : List Char :=
  (List.intercalate [' '] (splitWs s)).map lowerChar

/-- Does the first list occur at the head of the second one? -/
def begWith : List Char → List Char → Bool
  | [], _ => true
  | _ :: _, [] => false
  | a :: as, b :: bs => a == b && begWith as bs

/-- Python's `needle in hay` for strings: contiguous substring test. -/
def hasSub (n : List Char) : List Char → Bool
  | [] => n == []
  | c :: h => begWith n (c :: h) || hasSub n h

/-! ## difflib.SequenceMatcher.ratio

`_best_match` in `name_matching.py` scores entries with
`SequenceMatcher(None, a, b).ratio()` from the Python standard library.
The model below follows CPython's Ratcliff–Obershelp implementation for
inputs short enough that the autojunk heuristic is inert (it only fires
for strings of length ≥ 200, far beyond any catalog name). -/

/-- Length of the longest common extension (common prefix length). -/
def commonExt : List Char → List Char → ℕ
  | a :: as, b :: bs => if a = b then commonExt as bs + 1 else 0
  | _, _ => 0

/-- `find_longest_match` over the whole strings: among the maximal-length
matching blocks pick the one with the smallest start in `a`, then the
smallest start in `b` (CPython's tie-breaking); returns `(i, j, k)`. -/
def bestBlock (a b : List Char) : ℕ × ℕ × ℕ :=
  (List.range a.length).foldl
    (fun acc i =>
      (List.range b.length).foldl
        (fun acc2 j =>
          let k := commonExt (a.drop i) (b.drop j)
          if k > acc2.2.2 then (i, j, k) else acc2)
        acc)
    (0, 0, 0)

/-- Total number of matched characters over all matching blocks
(`get_matching_blocks`), written with a fuel argument to make the
recursion structural; `matchSum` supplies fuel that always suffices,
since every recursive call strictly shrinks the pieces. -/
def matchSumF : ℕ → List Char → List Char → ℕ
  | 0, _, _ => 0
  | fuel + 1, a, b =>
    let ijk := bestBlock a b
    if ijk.2.2 = 0 then 0
    else
      ijk.2.2 + matchSumF fuel (a.take ijk.1) (b.take ijk.2.1) +
        matchSumF fuel (a.drop (ijk.1 + ijk.2.2)) (b.drop (ijk.2.1 + ijk.2.2))

/-- Matched-character total for `SequenceMatcher.ratio`. -/
def matchSum (a b : List Char) : ℕ :=
  matchSumF (a.length + b.length + 1) a b

/-- `SequenceMatcher(None, a, b).ratio() = 2·M / (len a + len b)`
(CPython returns `1.0` when both strings are empty). -/
def smScore (a b : List Char) : ℚ :=
  if a.length + b.length = 0 then 1
  else 2 * (matchSum a b : ℚ) / ((a.length : ℚ) + (b.length : ℚ))

/-! ## `_best_match` and `resolve_known_name` from `name_matching.py` -/

/-- Loop of `_best_match`: `bn`/`bs` are the running `best_name` /
`best_score`; an exact normalized hit returns `(canonical, 1.0)` at once,
otherwise an entry replaces the best exactly when its ratio is strictly
greater. -/
def bestMatchAux (t : List Char) :
    List (List Char × List Char) → Option (List Char) → ℚ →
      Option (List Char) × ℚ
  | [], bn, bs => (bn, bs)
  | p :: rest, bn, bs =>
    if t = p.1 then (some p.2, 1)
    else if smScore t p.1 > bs then bestMatchAux t rest (some p.2) (smScore t p.1)
    else bestMatchAux t rest bn bs

/-- `_best_match(target_norm, index)` from `name_matching.py`: the index
is a list of `(normalized, canonical)` pairs. -/
def bestMatch (t : List Char) (index : List (List Char × List Char)) :
    Option (List Char) × ℚ :=
  bestMatchAux t index none 0

/-- Score that `_best_match` effectively assigns to one index entry: 1 on
an exact normalized hit, otherwise the SequenceMatcher ratio. -/
def entryScore (t : List Char) (p : List Char × List Char) : ℚ :=
  if t = p.1 then 1 else smScore t p.1

/-- Result dictionary of `resolve_known_name`. -/
structure Resolved where
  name : List Char
  source : String
  score : ℚ
deriving DecidableEq, Repr

/-- Python `max(candidates, key=lambda c: c[2])` on a nonempty list:
first maximal element wins ties. -/
def pickMax : List (String × List Char × ℚ) → Option (String × List Char × ℚ)
  | [] => none
  | c :: cs => some (cs.foldl (fun best x => if x.2.2 > best.2.2 then x else best) c)

/-- `resolve_known_name(name, doc_type, cutoff)` from `name_matching.py`,
with the two catalog indexes (built from the Excel reference data at
module load) passed explicitly.  Python's `if parent_name:` truthiness
treats both `None` and the empty string as "no candidate", hence the
emptiness tests inside the choices.  Note the source returns the same
dictionary in the `score >= cutoff` branch and in the fallthrough branch;
the translation keeps both branches. -/
def resolve_known_name (name : List Char) (docType : Option String)
    (pIdx cIdx : List (List Char × List Char)) (cutoff : ℚ) : Resolved :=
  let normalized := normalizeName name
  let pm := bestMatch normalized pIdx
  let cm := bestMatch normalized cIdx
  let parentChoice : Option (String × List Char × ℚ) :=
    match pm.1 with
    | some p => if p = [] then none else some (("composition" : String), p, pm.2)
    | none => none
  let catalogChoice : Option (String × List Char × ℚ) :=
    match cm.1 with
    | some c => if c = [] then none else some (("catalog" : String), c, cm.2)
    | none => none
  let candidates := parentChoice.toList ++ catalogChoice.toList
  let chosen : Option (String × List Char × ℚ) :=
    if (docType = some "production" ∨ docType = some "writeoff") ∧ parentChoice ≠ none then
      parentChoice
    else if docType = some "income" ∧ catalogChoice ≠ none then
      catalogChoice
    else pickMax candidates
  match chosen with
  | some ch => if ch.2.2 ≥ cutoff then ⟨ch.2.1, ch.1, ch.2.2⟩ else ⟨ch.2.1, ch.1, ch.2.2⟩
  | none => ⟨name, "raw", 0⟩

/-! ## Similarity scorer and best-match resolver (spec sections 4.1, 4.2)

`calc_similarity` and `find_best_match` are imported from `name_matching`
by `catalog_lookup.py`, `compositions.py` and `daily_act.py`, but they are
not defined in `src/name_matching.py`; the definitions below are modelled
from the spec. -/

/-- One row of the longest-common-subsequence table, built from the row
for the next suffix of the first string: entry `j` of the result is the
LCS length of `x :: aTail` against the `j`-th suffix of `b`, where `next`
holds the same lengths for `aTail`. -/
def lcsRowAux : List Char → List ℕ → Char → List ℕ
  | [], _, _ => [0]
  | bj :: bs, nj :: njs, x =>
    let rest := lcsRowAux bs njs x
    (if x = bj then njs.headD 0 + 1 else max (rest.headD 0) nj) :: rest
  | _ :: _, [], _ => [0]

/-- Longest common subsequence length, by dynamic programming over
suffix rows. -/
def lcs (a b : List Char) : ℕ :=
  (a.foldr (fun x next => lcsRowAux b next x)
      (List.replicate (b.length + 1) 0)).headD 0

/-- Modelled from the spec: similarity signal (a) of section 4.1,
a character-level longest-common-subsequence ratio in `[0,1]`
(`2·LCS / (len a + len b)`; 1 when both strings are empty). -/
def seqAlign (a b : List Char) : ℚ :=
  if a.length + b.length = 0 then 1
  else 2 * (lcs a b : ℚ) / ((a.length : ℚ) + (b.length : ℚ))

/-- Tail of a Levenshtein row: walks `b` and the previous row together;
`cur` is the entry just written to the new row. -/
def levRowAux : List Char → List ℕ → ℕ → Char → List ℕ
  | bj :: bs, pj :: ps, cur, x =>
    let nj := min (cur + 1) (min (ps.headD 0 + 1) (pj + if x = bj then 0 else 1))
    nj :: levRowAux bs ps nj x
  | _, _, _, _ => []

/-- One Levenshtein DP step: from the row for a prefix of `a` to the row
for that prefix extended by `x`. -/
def levStep (b : List Char) (prev : List ℕ) (x : Char) : List ℕ :=
  (prev.headD 0 + 1) :: levRowAux b prev (prev.headD 0 + 1) x

/-- Levenshtein edit distance (unit costs), by row dynamic programming. -/
def levDist (a b : List Char) : ℕ :=
  (a.foldl (levStep b) (List.range (b.length + 1))).getLastD 0

/-- Modelled from the spec: signal (b) of section 4.1, the token-overlap
ratio `|shared tokens| / max(|tokens a|, |tokens b|)` (shared tokens
counted as a set). -/
def tokenOverlap (a b : List Char) : ℚ :=
  let ta := splitWs a
  let tb := splitWs b
  let shared := (ta.dedup.filter (fun t => tb.contains t)).length
  if max ta.length tb.length = 0 then 0
  else (shared : ℚ) / (max ta.length tb.length : ℚ)

/-- Modelled from the spec: signal (c) of section 4.1, the normalized
edit-distance score `1 − dist / max(len a, len b)`. -/
def editScore (a b : List Char) : ℚ :=
  if max a.length b.length = 0 then 1
  else 1 - (levDist a b : ℚ) / (max a.length b.length : ℚ)

/-- Modelled from the spec: `calc_similarity` (spec section 4.1), absent
from `src/name_matching.py`.  Normalize both strings; empty side → 0;
exact normalized match → 1; otherwise the maximum of the directional
substring base score (0.92 resp. 0.88 plus a length-ratio bonus scaled by
0.05 — strictly below 1 here, so the spec's cap never binds) and the
weighted blend of the three signals (weights 0.40 / 0.25 / 0.35). -/
def calc_similarity (q c : List Char) : ℚ :=
  let nq := normalizeName q
  let nc := normalizeName c
  if nq = [] ∨ nc = [] then 0
  else if nq = nc then 1
  else
    let sub : ℚ :=
      if hasSub nq nc then 23/25 + (nq.length : ℚ) / (nc.length : ℚ) * (1/20)
      else if hasSub nc nq then 22/25 + (nc.length : ℚ) / (nq.length : ℚ) * (1/20)
      else 0
    let blended :=
      2/5 * seqAlign nq nc + 1/4 * tokenOverlap nq nc + 7/20 * editScore nq nc
    max sub blended

/-- Modelled from the spec: `find_best_match` (spec section 4.2), absent
from `src/name_matching.py`.  Scores every candidate with
`calc_similarity`, keeps the strictly greatest (first wins ties); empty
candidate list → `(none, 0)`. -/
def find_best_match (query : List Char) (candidates : List (List Char)) :
    Option (List Char) × ℚ :=
  candidates.foldl
    (fun acc c =>
      if calc_similarity query c > acc.2 then (some c, calc_similarity query c) else acc)
    (none, 0)

/-! ## `catalog_lookup.py`: `resolve_purchase_name`, `get_purchase_item` -/

/-- Failure conditions of `catalog_lookup.py` at the data level:
`emptyName` is the `ValueError` for a blank query, `notFound` is
`ProductNotFoundError` carrying the query and the ranked `(name, score)`
suggestions, `rowMissing` is the `ValueError` raised when the resolved
canonical name is unexpectedly absent from the filtered catalog.  The
human-readable message formatting of `ProductNotFoundError.__init__` is
not modelled. -/
inductive LookupError where
  | emptyName : LookupError
  | notFound : List Char → List (List Char × ℚ) → LookupError
  | rowMissing : LookupError
deriving DecidableEq, Repr

/-- The special-case "хот" handling at the top of
`resolve_purchase_name`: on a trigger query (contains "хот", no "соус",
and a sausage-related word or the bare forms "хот"/"хот."), the first
catalog entry containing "КОЛБАСКИ ОХОТНИЧЬИ" is returned directly
(`cat_name.upper()` membership is modelled by lower-casing both sides). -/
def hotOverride (nameClean : List Char) (catalog : List (List Char)) :
    Option (List Char) :=
  let lower := nameClean.map lowerChar
  if hasSub "хот".data lower && !hasSub "соус".data lower &&
      (hasSub "колбас".data lower || hasSub "охот".data lower ||
        hasSub "кол".data lower ||
        trimChars lower == "хот".data || trimChars lower == "хот.".data) then
    catalog.find? (fun n => hasSub "колбаски охотничьи".data (n.map lowerChar))
  else none

/-- Insert into a descending-by-score list, before the first entry with a
score not greater than the inserted one (this together with `sortDescBy`
models Python's stable `list.sort(key=lambda x: x[1], reverse=True)`). -/
def insDesc (x : List Char × ℚ) : List (List Char × ℚ) → List (List Char × ℚ)
  | [] => [x]
  | y :: ys => if y.2 > x.2 then y :: insDesc x ys else x :: y :: ys

/-- Stable descending-by-score insertion sort. -/
def sortDescBy (l : List (List Char × ℚ)) : List (List Char × ℚ) :=
  l.foldr insDesc []

/-- The top-5 suggestion list built in the failure branch of
`resolve_purchase_name`: score every non-blank catalog name, sort by
score descending, keep the first five. -/
def topSuggestions (nameClean : List Char) (catalog : List (List Char)) :
    List (List Char × ℚ) :=
  (sortDescBy ((catalog.filter (fun n => trimChars n ≠ [])).map
    (fun n => (n, calc_similarity nameClean n)))).take 5

/-- `resolve_purchase_name(name, min_score)` from `catalog_lookup.py`,
with the catalog name list passed explicitly.  Blank query → error;
then the "хот" override; then the general `find_best_match` path,
accepting a candidate iff its score reaches `min_score` (the
`[min_score, 0.75)` band only triggers a log line in the source and does
not change the returned value); otherwise `ProductNotFoundError` with the
top-5 ranked suggestions. -/
def resolve_purchase_name (name : List Char) (catalog : List (List Char))
    (minScore : ℚ) : Except LookupError (List Char) :=
  let nameClean := trimChars name
  if nameClean = [] then .error .emptyName
  else
    match hotOverride nameClean catalog with
    | some catName => .ok catName
    | none =>
      let fbm := find_best_match nameClean catalog
      match fbm.1 with
      | some candidate =>
        if fbm.2 ≥ minScore then .ok candidate
        else .error (.notFound nameClean (topSuggestions nameClean catalog))
      | none => .error (.notFound nameClean (topSuggestions nameClean catalog))

/-- `OKEI_BY_UNIT` from `catalog_lookup.py`. -/
def OKEI_BY_UNIT : List (List Char × List Char) :=
  [("кг".data, "166".data), ("г".data, "163".data),
   ("л".data, "112".data), ("шт".data, "796".data)]

/-! ## `utils.py`: `to_float_safe` and the purchase-item metadata -/

/-- A Python value as it can arrive in `to_float_safe`: `None`, an int,
a float, a string, or anything else. -/
inductive PyVal where
  | none : PyVal
  | int : ℤ → PyVal
  | float : ℚ → PyVal
  | str : List Char → PyVal
  | other : PyVal
deriving DecidableEq, Repr

/-- Digit run to a natural number. -/
def digitsToNat (l : List Char) : ℕ :=
  l.foldl (fun a c => 10 * a + (c.toNat - '0'.toNat)) 0

/-- Split at the first character satisfying `p`: the part before it and,
if found, the part after it. -/
def breakOn (p : Char → Bool) : List Char → List Char × Option (List Char)
  | [] => ([], Option.none)
  | c :: cs =>
    if p c then ([], some cs)
    else
      let r := breakOn p cs
      (c :: r.1, r.2)

/-- Leading `+`/`-` sign: whether it is `-`, and the remainder. -/
def parseSign : List Char → Bool × List Char
  | '-' :: r => (true, r)
  | '+' :: r => (false, r)
  | s => (false, s)

/-- Mantissa of a Python float literal: `digits`, `digits.`, `.digits` or
`digits.digits`, needing at least one digit. -/
def parseMantissa (s : List Char) : Option ℚ :=
  let br := breakOn (fun c => c == '.') s
  match br.2 with
  | Option.none =>
    if br.1 ≠ [] ∧ br.1.all Char.isDigit then some (digitsToNat br.1 : ℚ)
    else Option.none
  | some fp =>
    if (br.1 ≠ [] ∨ fp ≠ []) ∧ br.1.all Char.isDigit ∧ fp.all Char.isDigit then
      some ((digitsToNat br.1 : ℚ) + (digitsToNat fp : ℚ) / 10 ^ fp.length)
    else Option.none

/-- Acceptance of Python's `float(str)` on finite decimal literals:
optional surrounding whitespace, optional sign, decimal mantissa,
optional `e`/`E` exponent.  The non-finite literals (`inf`, `nan`) and
digit-group underscores are not modelled — they do not occur as prices. -/
def pyFloat? (s : List Char) : Option ℚ :=
  let t := trimChars s
  let sg := parseSign t
  let br := breakOn (fun c => c == 'e' || c == 'E') sg.2
  match parseMantissa br.1, br.2 with
  | some mv, Option.none => some (if sg.1 then -mv else mv)
  | some mv, some ex =>
    let esg := parseSign ex
    if esg.2 ≠ [] ∧ esg.2.all Char.isDigit then
      let scale : ℚ := 10 ^ digitsToNat esg.2
      let base := mv * (if esg.1 then 1 / scale else scale)
      some (if sg.1 then -base else base)
    else Option.none
  | Option.none, _ => Option.none

/-- `to_float_safe(value, default)` from `utils.py`: `None` → default;
int/float → that number; a string is stripped, commas become periods, an
empty result → default, else `float(...)` with `ValueError` absorbed into
the default; any other type → default. -/
def to_float_safe (value : PyVal) (default : ℚ) : ℚ :=
  match value with
  | .none => default
  | .int n => (n : ℚ)
  | .float q => q
  | .str s =>
    let cleaned := (trimChars s).map (fun c => if c == ',' then '.' else c)
    if cleaned = [] then default
    else
      match pyFloat? cleaned with
      | some q => q
      | Option.none => default
  | .other => default

/-- The claim's reading of the price contract: the value, after trimming
and comma→period normalization, either parses as a decimal number or is
unparsable.  Written independently of `to_float_safe`'s branch structure
so the two can be compared. -/
def pyParsed : PyVal → Option ℚ
  | .none => Option.none
  | .int n => some (n : ℚ)
  | .float q => some q
  | .str s => pyFloat? ((trimChars s).map (fun c => if c == ',' then '.' else c))
  | .other => Option.none

/-- One row of the filtered catalog table `DF_CAT` as `get_purchase_item`
reads it: canonical name, code, unit and the raw `Себест.` price cell. -/
structure CatRow where
  name : List Char
  code : List Char
  unit : List Char
  sebest : PyVal
deriving DecidableEq, Repr

/-- The dictionary returned by `get_purchase_item`. -/
structure PurchaseItem where
  name : List Char
  code : List Char
  unit : List Char
  okeei : List Char
  price : ℚ
deriving DecidableEq, Repr

/-- `get_purchase_item(name)` from `catalog_lookup.py`, over an explicit
row list: resolve the name against the catalog names (default
`min_score = 0.55`), find the first row with that canonical name, strip
code and unit, map the unit through `OKEI_BY_UNIT` (default `""`), and
convert the raw price with `to_float_safe(..., default=0.0)`. -/
def get_purchase_item (name : List Char) (rows : List CatRow) :
    Except LookupError PurchaseItem :=
  match resolve_purchase_name name (rows.map (fun r => r.name)) (11/20) with
  | .error e => .error e
  | .ok canonical =>
    match rows.find? (fun r => r.name == canonical) with
    | Option.none => .error .rowMissing
    | some row =>
      .ok ⟨canonical, trimChars row.code, trimChars row.unit,
        (OKEI_BY_UNIT.lookup (trimChars row.unit)).getD [],
        to_float_safe row.sebest 0⟩

/-- Decidable equality for `Except`, used to evaluate the resolver on
concrete inputs. -/
instance exceptDecEq {ε α : Type} [DecidableEq ε] [DecidableEq α] :
    DecidableEq (Except ε α) := fun x y =>
  match x, y with
  | .ok a, .ok b =>
    if h : a = b then isTrue (by rw [h]) else isFalse (fun hc => h (Except.ok.inj hc))
  | .error a, .error b =>
    if h : a = b then isTrue (by rw [h]) else isFalse (fun hc => h (Except.error.inj hc))
  | .ok _, .error _ => isFalse (fun hc => Except.noConfusion hc)
  | .error _, .ok _ => isFalse (fun hc => Except.noConfusion hc)

/-! ## Supporting lemmas -/

/-- The SequenceMatcher ratio is never negative. -/
lemma smScore_nonneg (a b : List Char) : 0 ≤ smScore a b := by
  unfold smScore
  split
  · norm_num
  · positivity

/-- Once `_best_match`'s loop holds a non-null best name, it never
returns a null candidate. -/
lemma bestMatchAux_some_ne_none (t : List Char) :
    ∀ (idx : List (List Char × List Char)) (c : List Char) (bs : ℚ),
      (bestMatchAux t idx (some c) bs).1 ≠ Option.none := by
  intro idx
  induction idx with
  | nil => intro c bs; simp [bestMatchAux]
  | cons p rest ih =>
    intro c bs
    by_cases hp : t = p.1
    · simp [bestMatchAux, hp]
    · by_cases hgt : smScore t p.1 > bs
      · simpa [bestMatchAux, hp, hgt] using ih p.2 (smScore t p.1)
      · simpa [bestMatchAux, hp, hgt] using ih c bs

/-- If every index entry scores zero, `_best_match`'s loop keeps the
initial null state. -/
lemma bestMatchAux_allzero (t : List Char) :
    ∀ idx : List (List Char × List Char),
      (∀ p ∈ idx, entryScore t p = 0) →
      bestMatchAux t idx Option.none 0 = (Option.none, 0) := by
  intro idx
  induction idx with
  | nil => intro _; rfl
  | cons p rest ih =>
    intro h
    have hp0 := h p (List.mem_cons_self p rest)
    have ht : ¬ t = p.1 := by
      intro hc
      simp [entryScore, hc] at hp0
    have hs : smScore t p.1 = 0 := by simpa [entryScore, ht] using hp0
    have hng : ¬ smScore t p.1 > 0 := by rw [hs]; exact lt_irrefl 0
    have := ih (fun q hq => h q (List.mem_cons_of_mem p hq))
    simpa [bestMatchAux, ht, hng] using this

/-- If some index entry has a positive effective score, `_best_match`
does not return a null candidate. -/
lemma bestMatchAux_pos_ne_none (t : List Char) :
    ∀ idx : List (List Char × List Char),
      (∃ p ∈ idx, entryScore t p ≠ 0) →
      (bestMatchAux t idx Option.none 0).1 ≠ Option.none := by
  intro idx
  induction idx with
  | nil => intro h; simp at h
  | cons p rest ih =>
    intro h
    by_cases hp : t = p.1
    · simp [bestMatchAux, hp]
    · by_cases hgt : smScore t p.1 > 0
      · simpa [bestMatchAux, hp, hgt] using
          bestMatchAux_some_ne_none t rest p.2 (smScore t p.1)
      · have hs : smScore t p.1 = 0 :=
          le_antisymm (not_lt.mp hgt) (smScore_nonneg t p.1)
        have h' : ∃ q ∈ rest, entryScore t q ≠ 0 := by
          obtain ⟨q, hq, hqe⟩ := h
          rcases List.mem_cons.mp hq with rfl | hq'
          · exact absurd (by simpa [entryScore, hp] using hs) hqe
          · exact ⟨q, hq', hqe⟩
        simpa [bestMatchAux, hp, hgt] using ih h'

/-- An exact normalized hit anywhere in the index forces score 1 and the
canonical name of an exact entry. -/
lemma bestMatchAux_exact (t : List Char) :
    ∀ (idx : List (List Char × List Char)) (bn : Option (List Char)) (bs : ℚ),
      (∃ p ∈ idx, p.1 = t) →
      (bestMatchAux t idx bn bs).2 = 1 ∧
        ∃ p ∈ idx, p.1 = t ∧ (bestMatchAux t idx bn bs).1 = some p.2 := by
  intro idx
  induction idx with
  | nil => intro bn bs h; simp at h
  | cons p rest ih =>
    intro bn bs h
    by_cases hp : t = p.1
    · exact ⟨by simp [bestMatchAux, hp],
        ⟨p, List.mem_cons_self p rest, hp.symm, by simp [bestMatchAux, hp]⟩⟩
    · have h' : ∃ q ∈ rest, q.1 = t := by
        obtain ⟨q, hq, hqt⟩ := h
        rcases List.mem_cons.mp hq with rfl | hq'
        · exact absurd hqt.symm hp
        · exact ⟨q, hq', hqt⟩
      by_cases hgt : smScore t p.1 > bs
      · have hres := ih (some p.2) (smScore t p.1) h'
        refine ⟨by simpa [bestMatchAux, hp, hgt] using hres.1, ?_⟩
        obtain ⟨r, hr, hrt, hre⟩ := hres.2
        exact ⟨r, List.mem_cons_of_mem p hr, hrt,
          by simpa [bestMatchAux, hp, hgt] using hre⟩
      · have hres := ih bn bs h'
        refine ⟨by simpa [bestMatchAux, hp, hgt] using hres.1, ?_⟩
        obtain ⟨r, hr, hrt, hre⟩ := hres.2
        exact ⟨r, List.mem_cons_of_mem p hr, hrt,
          by simpa [bestMatchAux, hp, hgt] using hre⟩

/-! ## Claim theorems -/

/-- C10: for every input name and doc_type, `resolve_known_name` is
independent of its `cutoff` parameter — the below-cutoff branch returns
exactly the same dictionary (name, source, score) as the at-or-above
branch, so the acceptance threshold never changes the returned value. -/
theorem resolve_known_name_cutoff_independent (name : List Char)
    (docType : Option String) (pIdx cIdx : List (List Char × List Char))
    (c₁ c₂ : ℚ) :
    resolve_known_name name docType pIdx cIdx c₁ =
      resolve_known_name name docType pIdx cIdx c₂ := by
  unfold resolve_known_name
  simp only [ite_self]

/-- C6: whenever the query's normalized form equals the normalized form
of some index entry, `_best_match` returns score exactly 1.0 together
with the canonical name of an exact entry. -/
theorem best_match_exact_short_circuit (t : List Char)
    (idx : List (List Char × List Char)) (h : ∃ p ∈ idx, p.1 = t) :
    (bestMatch t idx).2 = 1 ∧
      ∃ p ∈ idx, p.1 = t ∧ (bestMatch t idx).1 = some p.2 :=
  bestMatchAux_exact t idx Option.none 0 h

/-- C6 witness: a catalog containing "Тесто" matched by "тесто  "
(case and whitespace noise removed by normalization). -/
theorem best_match_exact_short_circuit_witness :
    (bestMatch (normalizeName "тесто  ".data)
        [("крутоны".data, "Крутоны".data), ("тесто".data, "Тесто".data)]).2 = 1 ∧
      ∃ p ∈ [("крутоны".data, "Крутоны".data), ("тесто".data, "Тесто".data)],
        p.1 = normalizeName "тесто  ".data ∧
        (bestMatch (normalizeName "тесто  ".data)
            [("крутоны".data, "Крутоны".data), ("тесто".data, "Тесто".data)]).1 = some p.2 :=
  best_match_exact_short_circuit _ _ (by decide)

/-- C7: `_best_match` returns a null candidate exactly when no index
entry has a positive effective score (which covers the empty index); a
null candidate comes with score 0.0, and the empty index yields
`(null, 0.0)`. -/
theorem best_match_none_iff (t : List Char)
    (idx : List (List Char × List Char)) :
    ((bestMatch t idx).1 = Option.none ↔ ∀ p ∈ idx, entryScore t p = 0) ∧
      ((bestMatch t idx).1 = Option.none → (bestMatch t idx).2 = 0) ∧
      bestMatch t ([] : List (List Char × List Char)) = (Option.none, 0) := by
  have hiff : (bestMatch t idx).1 = Option.none ↔ ∀ p ∈ idx, entryScore t p = 0 := by
    constructor
    · intro hnone
      by_contra hall
      push_neg at hall
      exact bestMatchAux_pos_ne_none t idx hall hnone
    · intro h
      have := bestMatchAux_allzero t idx h
      simpa [bestMatch] using congrArg Prod.fst this
  refine ⟨hiff, ?_, rfl⟩
  intro hnone
  have := bestMatchAux_allzero t idx (hiff.mp hnone)
  simpa [bestMatch] using congrArg Prod.snd this

/-- C7 witness: a query sharing no character with the only entry yields
`(null, 0.0)`, and the all-zero characterization applies to it. -/
theorem best_match_none_iff_witness :
    (bestMatch "аб".data [("ув".data, "УВ".data)]).1 = Option.none ∧
      (bestMatch "аб".data [("ув".data, "УВ".data)]).2 = 0 := by
  have h := best_match_none_iff "аб".data [("ув".data, "УВ".data)]
  have h1 : (bestMatch "аб".data [("ув".data, "УВ".data)]).1 = Option.none :=
    h.1.mpr (by with_unfolding_all decide)
  exact ⟨h1, h.2.1 h1⟩

/-- C3: for doc_type "income" the purchasable-goods catalog is
authoritative — whenever the catalog index yields any candidate, the
returned match is that candidate with source "catalog" and the catalog's
score, whatever the composition index scored. -/
theorem resolve_known_name_income_catalog (name : List Char)
    (pIdx cIdx : List (List Char × List Char)) (cutoff : ℚ) (c : List Char)
    (h : (bestMatch (normalizeName name) cIdx).1 = some c) (hc : c ≠ []) :
    resolve_known_name name (some "income") pIdx cIdx cutoff =
      ⟨c, "catalog", (bestMatch (normalizeName name) cIdx).2⟩ := by
  unfold resolve_known_name
  simp [h, hc, ite_self]

/-- C3 witness: the composition index holds an exact (score 1.0) match
for "сыр", yet for doc_type "income" the weaker catalog match "СЫРОК"
(score 0.75) is returned. -/
theorem resolve_known_name_income_catalog_witness :
    resolve_known_name "сыр".data (some "income") [("сыр".data, "СЫР".data)]
        [("сырок".data, "СЫРОК".data)] (3/5) = ⟨"СЫРОК".data, "catalog", 3/4⟩ := by
  have h : (bestMatch (normalizeName "сыр".data) [("сырок".data, "СЫРОК".data)]).1 =
      some "СЫРОК".data := by with_unfolding_all decide
  have h2 : (bestMatch (normalizeName "сыр".data) [("сырок".data, "СЫРОК".data)]).2 =
      3/4 := by with_unfolding_all decide
  rw [resolve_known_name_income_catalog "сыр".data [("сыр".data, "СЫР".data)]
    [("сырок".data, "СЫРОК".data)] (3/5) "СЫРОК".data h (by decide), h2]

/-- C2 (amended): for doc_type "production" or "writeoff" the composition
index is preferred whenever it yields any candidate — even one whose
score is below the cutoff — and resolution falls back to the catalog only
when the composition index yields no candidate at all. -/
theorem resolve_known_name_parents_first (name : List Char) (docType : String)
    (pIdx cIdx : List (List Char × List Char)) (cutoff : ℚ)
    (hdt : docType = "production" ∨ docType = "writeoff") :
    (∀ p, (bestMatch (normalizeName name) pIdx).1 = some p → p ≠ [] →
        resolve_known_name name (some docType) pIdx cIdx cutoff =
          ⟨p, "composition", (bestMatch (normalizeName name) pIdx).2⟩) ∧
      (∀ c, (bestMatch (normalizeName name) pIdx).1 = Option.none →
        (bestMatch (normalizeName name) cIdx).1 = some c → c ≠ [] →
        resolve_known_name name (some docType) pIdx cIdx cutoff =
          ⟨c, "catalog", (bestMatch (normalizeName name) cIdx).2⟩) := by
  constructor
  · intro p hp hpne
    rcases hdt with rfl | rfl <;>
      · unfold resolve_known_name
        simp [hp, hpne, ite_self]
  · intro c hp hc hcne
    rcases hdt with rfl | rfl <;>
      · unfold resolve_known_name
        simp [hp, hc, hcne, pickMax, ite_self]

/-- C2 witness: with a composition candidate present it wins regardless
of score; with the composition index scoring nothing, the catalog match
is returned. -/
theorem resolve_known_name_parents_first_witness :
    resolve_known_name "тесто".data (some "production")
        [("тесто".data, "Тесто".data)] [("тесто".data, "ТЕСТО-К".data)] (3/5) =
      ⟨"Тесто".data, "composition", 1⟩ ∧
    resolve_known_name "мёд".data (some "writeoff")
        [("ув".data, "УВ".data)] [("мёд".data, "Мёд".data)] (3/5) =
      ⟨"Мёд".data, "catalog", 1⟩ := by
  constructor
  · have h := (resolve_known_name_parents_first "тесто".data "production"
      [("тесто".data, "Тесто".data)] [("тесто".data, "ТЕСТО-К".data)] (3/5)
      (Or.inl rfl)).1 "Тесто".data (by with_unfolding_all decide) (by decide)
    have h2 : (bestMatch (normalizeName "тесто".data)
        [("тесто".data, "Тесто".data)]).2 = 1 := by with_unfolding_all decide
    rw [h, h2]
  · have h := (resolve_known_name_parents_first "мёд".data "writeoff"
      [("ув".data, "УВ".data)] [("мёд".data, "Мёд".data)] (3/5)
      (Or.inr rfl)).2 "Мёд".data (by with_unfolding_all decide)
      (by with_unfolding_all decide) (by decide)
    have h2 : (bestMatch (normalizeName "мёд".data)
        [("мёд".data, "Мёд".data)]).2 = 1 := by with_unfolding_all decide
    rw [h, h2]

/-- C2 counterexample: for doc_type "production", the composition best
score 0.4 is below the cutoff 0.6 while the catalog holds an exact match
(score 1.0 ≥ 0.6), yet the returned match still comes from the
composition source — no fallback happens. -/
theorem resolve_known_name_no_fallback_counterexample :
    (bestMatch (normalizeName "axy".data) [("ab".data, "AB".data)]).2 < 3/5 ∧
      (3/5 : ℚ) ≤ (bestMatch (normalizeName "axy".data) [("axy".data, "AXY".data)]).2 ∧
      resolve_known_name "axy".data (some "production")
          [("ab".data, "AB".data)] [("axy".data, "AXY".data)] (3/5) =
        ⟨"AB".data, "composition", 2/5⟩ := by
  with_unfolding_all decide

/-- C8: a name that is blank after trimming is rejected by
`resolve_purchase_name` before any scoring — the immediate result is the
empty-name error, never a match. -/
theorem resolve_purchase_name_blank_rejected (name : List Char)
    (catalog : List (List Char)) (minScore : ℚ) (h : trimChars name = []) :
    resolve_purchase_name name catalog minScore = .error .emptyName := by
  unfold resolve_purchase_name
  simp [h]

/-- C8 witness: a whitespace-only name against a non-empty catalog. -/
theorem resolve_purchase_name_blank_rejected_witness :
    resolve_purchase_name "   ".data ["сыр".data] (11/20) = .error .emptyName :=
  resolve_purchase_name_blank_rejected "   ".data ["сыр".data] (11/20)
    (by with_unfolding_all decide)

/-- A non-empty substring only occurs in a non-empty string. -/
lemma hasSub_ne_nil {n h : List Char} (hs : hasSub n h = true) (hn : n ≠ []) :
    h ≠ [] := by
  cases h with
  | nil =>
    exact absurd (by simpa [hasSub] using hs) hn
  | cons x xs => simp

/-- C1 (amended): when the normalized query is non-empty, unequal to the
normalized candidate and a substring of it, the similarity is at least
0.92; in the symmetric direction (non-empty normalized candidate, a
substring of the normalized query) it is at least 0.88. -/
theorem similarity_substring_bounds (q c : List Char) :
    (normalizeName q ≠ normalizeName c → normalizeName q ≠ [] →
        hasSub (normalizeName q) (normalizeName c) = true →
        (23/25 : ℚ) ≤ calc_similarity q c) ∧
      (normalizeName q ≠ normalizeName c → normalizeName c ≠ [] →
        hasSub (normalizeName c) (normalizeName q) = true →
        (22/25 : ℚ) ≤ calc_similarity q c) := by
  constructor
  · intro hne hq hsub
    have hc : normalizeName c ≠ [] := hasSub_ne_nil hsub hq
    have hb : (0 : ℚ) ≤
        ((normalizeName q).length : ℚ) / ((normalizeName c).length : ℚ) * (1/20) := by
      positivity
    unfold calc_similarity
    rw [if_neg (not_or.mpr ⟨hq, hc⟩), if_neg hne, if_pos hsub]
    exact le_trans (by linarith) (le_max_left _ _)
  · intro hne hc hsub
    have hq : normalizeName q ≠ [] := hasSub_ne_nil hsub hc
    unfold calc_similarity
    rw [if_neg (not_or.mpr ⟨hq, hc⟩), if_neg hne]
    by_cases h2 : hasSub (normalizeName q) (normalizeName c) = true
    · have hb : (0 : ℚ) ≤
          ((normalizeName q).length : ℚ) / ((normalizeName c).length : ℚ) * (1/20) := by
        positivity
      rw [if_pos h2]
      exact le_trans (by linarith) (le_max_left _ _)
    · have hb : (0 : ℚ) ≤
          ((normalizeName c).length : ℚ) / ((normalizeName q).length : ℚ) * (1/20) := by
        positivity
      rw [if_neg h2, if_pos hsub]
      exact le_trans (by linarith) (le_max_left _ _)

/-- C1 witness: "аб" is a strict inner substring of "с аб т", so the
query→candidate direction scores at least 0.92 and the reverse direction
at least 0.88. -/
theorem similarity_substring_bounds_witness :
    (23/25 : ℚ) ≤ calc_similarity "аб".data "с аб т".data ∧
      (22/25 : ℚ) ≤ calc_similarity "с аб т".data "аб".data := by
  constructor
  · exact (similarity_substring_bounds "аб".data "с аб т".data).1
      (by with_unfolding_all decide) (by with_unfolding_all decide)
      (by with_unfolding_all decide)
  · exact (similarity_substring_bounds "с аб т".data "аб".data).2
      (by with_unfolding_all decide) (by with_unfolding_all decide)
      (by with_unfolding_all decide)

/-- C1 counterexample: the empty query normalizes to a string that is
unequal to and a substring of the normalized candidate "a", yet the
similarity is 0, not at least 0.92 (and symmetrically the empty candidate
scores 0, not at least 0.88) — the claim omits the non-emptiness
precondition of the scorer. -/
theorem similarity_empty_query_counterexample :
    normalizeName ([] : List Char) ≠ normalizeName "a".data ∧
      hasSub (normalizeName ([] : List Char)) (normalizeName "a".data) = true ∧
      calc_similarity ([] : List Char) "a".data = 0 ∧
      ¬ (23/25 : ℚ) ≤ calc_similarity ([] : List Char) "a".data ∧
      calc_similarity "a".data ([] : List Char) = 0 ∧
      ¬ (22/25 : ℚ) ≤ calc_similarity "a".data ([] : List Char) := by
  with_unfolding_all decide

/-- Elements of an insertion are the inserted one or old ones. -/
lemma mem_insDesc (x a : List Char × ℚ) :
    ∀ l, a ∈ insDesc x l → a = x ∨ a ∈ l := by
  intro l
  induction l with
  | nil => intro h; simpa [insDesc] using h
  | cons y ys ih =>
    intro h
    by_cases hc : y.2 > x.2
    · rw [insDesc, if_pos hc] at h
      rcases List.mem_cons.mp h with rfl | h'
      · exact Or.inr (List.mem_cons_self _ _)
      · rcases ih h' with rfl | h''
        · exact Or.inl rfl
        · exact Or.inr (List.mem_cons_of_mem _ h'')
    · rw [insDesc, if_neg hc] at h
      rcases List.mem_cons.mp h with rfl | h'
      · exact Or.inl rfl
      · exact Or.inr h'

/-- Inserting into a descending list keeps it descending. -/
lemma pairwise_insDesc (x : List Char × ℚ) :
    ∀ l, l.Pairwise (fun a b => b.2 ≤ a.2) →
      (insDesc x l).Pairwise (fun a b => b.2 ≤ a.2) := by
  intro l
  induction l with
  | nil => intro _; simp [insDesc]
  | cons y ys ih =>
    intro h
    rw [List.pairwise_cons] at h
    by_cases hc : y.2 > x.2
    · rw [insDesc, if_pos hc, List.pairwise_cons]
      refine ⟨?_, ih h.2⟩
      intro a ha
      rcases mem_insDesc x a ys ha with rfl | ha'
      · exact le_of_lt hc
      · exact h.1 a ha'
    · rw [insDesc, if_neg hc, List.pairwise_cons]
      refine ⟨?_, List.pairwise_cons.mpr h⟩
      intro a ha
      rcases List.mem_cons.mp ha with rfl | ha'
      · exact not_lt.mp hc
      · exact le_trans (h.1 a ha') (not_lt.mp hc)

/-- The suggestion sort produces a descending-by-score list. -/
lemma pairwise_sortDescBy (l : List (List Char × ℚ)) :
    (sortDescBy l).Pairwise (fun a b => b.2 ≤ a.2) := by
  unfold sortDescBy
  induction l with
  | nil => simp
  | cons x xs ih => exact pairwise_insDesc x _ ih

/-- The top-5 suggestion list is descending by score. -/
lemma topSuggestions_sorted (n : List Char) (catalog : List (List Char)) :
    (topSuggestions n catalog).Pairwise (fun a b => b.2 ≤ a.2) :=
  List.Pairwise.sublist (List.take_sublist _ _) (pairwise_sortDescBy _)

/-- C4 (amended): for a non-blank query that does not trigger the special
"хот" override and whose best catalog score is below `min_score`,
`resolve_purchase_name` fails with the not-found error carrying the
trimmed query and the ranked suggestion list, which has at most 5 entries
and is sorted by descending score. -/
theorem resolve_purchase_name_not_found (name : List Char)
    (catalog : List (List Char)) (minScore : ℚ)
    (h0 : trimChars name ≠ [])
    (h1 : hotOverride (trimChars name) catalog = Option.none)
    (h2 : (find_best_match (trimChars name) catalog).2 < minScore) :
    resolve_purchase_name name catalog minScore =
        .error (.notFound (trimChars name) (topSuggestions (trimChars name) catalog)) ∧
      (topSuggestions (trimChars name) catalog).length ≤ 5 ∧
      (topSuggestions (trimChars name) catalog).Pairwise (fun a b => b.2 ≤ a.2) := by
  refine ⟨?_, ?_, topSuggestions_sorted _ _⟩
  · unfold resolve_purchase_name
    rw [if_neg h0, h1]
    cases hf : (find_best_match (trimChars name) catalog).1 with
    | none => simp [hf]
    | some c => simp [hf, not_le.mpr h2]
  · simp only [topSuggestions]
    exact List.length_take_le 5
      (sortDescBy ((catalog.filter (fun n => trimChars n ≠ [])).map
        (fun n => (n, calc_similarity (trimChars name) n))))

/-- C4 witness: a query sharing nothing with the only catalog entry fails
with the structured not-found error and a well-formed suggestion list. -/
theorem resolve_purchase_name_not_found_witness :
    resolve_purchase_name "абв".data ["xyz".data] (11/20) =
        .error (.notFound (trimChars "абв".data)
          (topSuggestions (trimChars "абв".data) ["xyz".data])) ∧
      (topSuggestions (trimChars "абв".data) ["xyz".data]).length ≤ 5 ∧
      (topSuggestions (trimChars "абв".data) ["xyz".data]).Pairwise
        (fun a b => b.2 ≤ a.2) :=
  resolve_purchase_name_not_found "абв".data ["xyz".data] (11/20)
    (by with_unfolding_all decide) (by with_unfolding_all decide)
    (by with_unfolding_all decide)

/-- C4 counterexample: the query "хот." is non-blank and its best catalog
score is far below `min_score = 0.55`, yet `resolve_purchase_name`
returns a name instead of failing — the special "хот" override preempts
the not-found path. -/
theorem resolve_purchase_name_override_counterexample :
    trimChars "хот.".data ≠ [] ∧
      (find_best_match (trimChars "хот.".data) ["КОЛБАСКИ ОХОТНИЧЬИ".data]).2 < 11/20 ∧
      resolve_purchase_name "хот.".data ["КОЛБАСКИ ОХОТНИЧЬИ".data] (11/20) =
        .ok "КОЛБАСКИ ОХОТНИЧЬИ".data := by
  with_unfolding_all decide

/-- C5 (amended): a query in the low-confidence band
`min_score ≤ score < 0.75` still returns the matched canonical name
(the band only triggers an audit log line), provided the special "хот"
override does not fire; when it does, a different forced catalog name is
returned — still never a failure. -/
theorem resolve_purchase_name_low_band (name : List Char)
    (catalog : List (List Char)) (minScore : ℚ) (c : List Char)
    (h0 : trimChars name ≠ [])
    (h1 : hotOverride (trimChars name) catalog = Option.none)
    (h2 : (find_best_match (trimChars name) catalog).1 = some c)
    (h3 : minScore ≤ (find_best_match (trimChars name) catalog).2)
    (h4 : (find_best_match (trimChars name) catalog).2 < 3/4) :
    resolve_purchase_name name catalog minScore = .ok c := by
  have hband : (find_best_match (trimChars name) catalog).2 < 3/4 := h4
  unfold resolve_purchase_name
  rw [if_neg h0, h1]
  simp [h2, h3]

/-- C5 witness: "сыр кот abc" matches "сыр кот xyz" with score 47/66,
inside the band [0.55, 0.75), and the match is returned. -/
theorem resolve_purchase_name_low_band_witness :
    resolve_purchase_name "сыр кот abc".data ["сыр кот xyz".data] (11/20) =
      .ok "сыр кот xyz".data :=
  resolve_purchase_name_low_band "сыр кот abc".data ["сыр кот xyz".data]
    (11/20) "сыр кот xyz".data
    (by with_unfolding_all decide) (by with_unfolding_all decide)
    (by with_unfolding_all decide) (by with_unfolding_all decide)
    (by with_unfolding_all decide)

/-- C5 counterexample: "хот кол abc" has best match "хот кол xyz" with
score 47/66 inside the band [0.55, 0.75), yet the returned name is the
forced "КОЛБАСКИ ОХОТНИЧЬИ", not the matched candidate — the "хот"
override preempts the band rule (though still without failing). -/
theorem resolve_purchase_name_band_override_counterexample :
    (11/20 : ℚ) ≤ (find_best_match (trimChars "хот кол abc".data)
        ["хот кол xyz".data, "КОЛБАСКИ ОХОТНИЧЬИ".data]).2 ∧
      (find_best_match (trimChars "хот кол abc".data)
        ["хот кол xyz".data, "КОЛБАСКИ ОХОТНИЧЬИ".data]).2 < 3/4 ∧
      (find_best_match (trimChars "хот кол abc".data)
        ["хот кол xyz".data, "КОЛБАСКИ ОХОТНИЧЬИ".data]).1 = some "хот кол xyz".data ∧
      resolve_purchase_name "хот кол abc".data
          ["хот кол xyz".data, "КОЛБАСКИ ОХОТНИЧЬИ".data] (11/20) =
        .ok "КОЛБАСКИ ОХОТНИЧЬИ".data ∧
      ("КОЛБАСКИ ОХОТНИЧЬИ".data : List Char) ≠ "хот кол xyz".data := by
  with_unfolding_all decide

/-- `to_float_safe` returns the parsed decimal when the value parses and
the default otherwise. -/
lemma to_float_safe_eq (v : PyVal) (d : ℚ) :
    to_float_safe v d = (pyParsed v).getD d := by
  cases v with
  | none => rfl
  | int n => rfl
  | float q => rfl
  | other => rfl
  | str s =>
    show (if ((trimChars s).map (fun c => if c == ',' then '.' else c)) = [] then d
        else match pyFloat? ((trimChars s).map (fun c => if c == ',' then '.' else c)) with
          | some q => q
          | Option.none => d) =
      (pyFloat? ((trimChars s).map (fun c => if c == ',' then '.' else c))).getD d
    by_cases h : ((trimChars s).map (fun c => if c == ',' then '.' else c)) = []
    · rw [if_pos h, h]
      rfl
    · rw [if_neg h]
      cases hp : pyFloat? ((trimChars s).map (fun c => if c == ',' then '.' else c)) with
      | none => simp [hp]
      | some q => simp [hp]

/-- C9 (amended): price parsing is total — `to_float_safe` returns the
parsed decimal whenever the source value (after trimming and
comma→period normalization) parses, and the safe default otherwise; the
`price` field `get_purchase_item` returns is always the `to_float_safe`
image (default 0.0) of the matched row's raw price.  Note a parsable zero
also yields 0.0, so 0.0 does not imply an unparsable source. -/
theorem to_float_safe_price_contract :
    (∀ (v : PyVal) (d : ℚ), to_float_safe v d = (pyParsed v).getD d) ∧
      (∀ (name : List Char) (rows : List CatRow) (item : PurchaseItem),
        get_purchase_item name rows = .ok item →
        ∃ row, rows.find? (fun r => r.name == item.name) = some row ∧
          item.price = (pyParsed row.sebest).getD 0) := by
  refine ⟨to_float_safe_eq, ?_⟩
  intro name rows item
  unfold get_purchase_item
  cases hr : resolve_purchase_name name (rows.map (fun r => r.name)) (11/20) with
  | error e =>
    intro h
    exact absurd h (by simp)
  | ok canonical =>
    show (match rows.find? (fun r => r.name == canonical) with
        | Option.none => (Except.error LookupError.rowMissing : Except LookupError PurchaseItem)
        | some row => Except.ok ⟨canonical, trimChars row.code, trimChars row.unit,
            (OKEI_BY_UNIT.lookup (trimChars row.unit)).getD [],
            to_float_safe row.sebest 0⟩) = Except.ok item →
      ∃ row, rows.find? (fun r => r.name == item.name) = some row ∧
        item.price = (pyParsed row.sebest).getD 0
    cases hf : rows.find? (fun r => r.name == canonical) with
    | none =>
      intro h
      exact absurd h (by simp)
    | some row =>
      intro h
      have hitem : (⟨canonical, trimChars row.code, trimChars row.unit,
          (OKEI_BY_UNIT.lookup (trimChars row.unit)).getD [],
          to_float_safe row.sebest 0⟩ : PurchaseItem) = item := Except.ok.inj h
      refine ⟨row, ?_, ?_⟩
      · rw [← hitem]
        exact hf
      · rw [← hitem]
        exact to_float_safe_eq row.sebest 0

/-- C9 witness: "3,14" parses to 157/50 through the comma fix, and a
catalog row with the unparsable price "пусто" yields an item whose price
is the 0.0 default. -/
theorem to_float_safe_price_contract_witness :
    to_float_safe (.str " 3,14 ".data) 0 = 157/50 ∧
      ∃ row, [(⟨"мёд".data, "8".data, "л".data, .str "пусто".data⟩ : CatRow)].find?
          (fun r => r.name ==
            (⟨"мёд".data, "8".data, "л".data, "112".data, (0 : ℚ)⟩ : PurchaseItem).name) =
          some row ∧
        (⟨"мёд".data, "8".data, "л".data, "112".data, (0 : ℚ)⟩ : PurchaseItem).price =
          (pyParsed row.sebest).getD 0 := by
  constructor
  · rw [to_float_safe_price_contract.1 (.str " 3,14 ".data) 0]
    with_unfolding_all decide
  · exact to_float_safe_price_contract.2 "мёд".data
      [⟨"мёд".data, "8".data, "л".data, .str "пусто".data⟩]
      ⟨"мёд".data, "8".data, "л".data, "112".data, 0⟩
      (by with_unfolding_all decide)

/-- C9 counterexample: the source price "0" is a clean decimal (it
parses to 0), and the produced item's price is 0.0 — so "price is 0.0
exactly when the source is unparsable" fails in the only-if direction. -/
theorem to_float_safe_parsable_zero_counterexample :
    pyParsed (.str "0".data) = some 0 ∧
      get_purchase_item "сыр".data
          [⟨"сыр".data, "7".data, "кг".data, .str "0".data⟩] =
        .ok ⟨"сыр".data, "7".data, "кг".data, "166".data, 0⟩ := by
  with_unfolding_all decide
